import Mathlib

/-
Verification of the HX711 thrust-logger firmware (src/Calibration.ino).

Shallow embedding conventions:
- `unsigned long` millisecond times are modelled as `Nat` (the device runs far
  below the 2^32 ms wrap, and all subtractions in the source occur with the
  minuend at or above the subtrahend on monotone `millis()` sequences, so
  truncated `Nat` subtraction agrees with the C unsigned arithmetic there).
- `float` values are modelled as `Rat`, except for the EEPROM cell, whose
  decoded content may be NaN (erased EEPROM); it is modelled by `FVal`.
- The HX711 driver, the serial channel and the EEPROM are the external
  collaborators of the sketch; their outputs (tare status, available bytes,
  parsed floats) are supplied as explicit inputs to each embedded step.
-/

/-- A float value as decoded from the EEPROM cell: either NaN or a numeric
value (modelled as a rational). -/
inductive FVal
  | nan
  | num (q : Rat)
deriving DecidableEq

/-- `isnan` on a decoded float. -/
def isnanF : FVal → Bool
  | .nan => true
  | .num _ => false

/-- The C comparison `x != 0.0` on a decoded float (IEEE: `NaN != 0.0` is
true). -/
def fvalNeZero : FVal → Bool
  | .nan => true
  | .num q => decide (q ≠ 0)

/-- Numeric content of a decoded float; the `nan` branch returns a junk value
and is only ever read under a `!isnanF` guard. -/
def fvalNum : FVal → Rat
  | .nan => 0
  | .num q => q

/-- `clampZero` from Calibration.ino lines 34-37:
`if (v < 0.0f) return 0.0f; return v;`. -/
def clampZero (v : Rat) : Rat :=
  if v < 0 then 0 else v

/-- State of the sampling scheduler: the globals `startTimeMs` and
`lastSampleMs` of Calibration.ino (lines 26-27). -/
structure SchedState where
  startTimeMs : Nat
  lastSampleMs : Nat
deriving DecidableEq

/-- One pass of the timed-sampling check in `loop` (lines 97-104):
if `now - lastSampleMs >= sampleIntervalMs` then `lastSampleMs` advances by
exactly `sampleIntervalMs` ("keep consistent spacing") and a reading stamped
with elapsed time `now - startTimeMs` is emitted; otherwise nothing happens. -/
def schedTick (intervalMs : Nat) (s : SchedState) (now : Nat) :
    SchedState × Option Nat :=
  if now - s.lastSampleMs ≥ intervalMs then
    ({ s with lastSampleMs := s.lastSampleMs + intervalMs },
     some (now - s.startTimeMs))
  else
    (s, none)

/-- Iterate `schedTick` over a list of poll times, collecting the elapsed-time
stamps of the emitted readings. -/
def schedRun (intervalMs : Nat) : SchedState → List Nat → SchedState × List Nat
  | s, [] => (s, [])
  | s, now :: rest =>
      ((schedRun intervalMs (schedTick intervalMs s now).1 rest).1,
       (schedTick intervalMs s now).2.toList ++
         (schedRun intervalMs (schedTick intervalMs s now).1 rest).2)

/-- Initial value of `sampleIntervalMs` (line 28): 10 ms, i.e. 100 Hz. -/
def sampleIntervalMsInit : Nat := 10

/-- Operator-facing outcome message of the set-frequency command. -/
inductive FreqMsg
  | setTo (hz : Rat)
  | invalid
  | noInput
deriving DecidableEq

/-- The body of the `f` command (lines 150-167). The 5-second wait for serial
input is modelled by the `input` option: `some hz` is a float arriving within
the window, `none` is the timeout. `if (newHz > 0.0)` accepts the value and
sets `sampleIntervalMs = (unsigned long)(1000.0f / newHz)` (truncating cast of
a positive float, i.e. floor); otherwise the prior interval is retained and a
rejection message is printed. -/
def freqCommand (input : Option Rat) (old : Nat) : Nat × FreqMsg :=
  match input with
  | some newHz =>
      if 0 < newHz then
        (((1000 / newHz : Rat)).floor.toNat, .setTo newHz)
      else
        (old, .invalid)
  | none => (old, .noInput)

/-- Which source the loaded calibration factor came from, as reported on the
serial channel in `setup` ("Loaded calFactor from EEPROM" vs "Using default
calFactor = 1.0"). -/
inductive LoadSrc
  | fromStore
  | fromDefault
deriving DecidableEq

/-- The EEPROM-load logic of `setup` (lines 54-66): read the stored value;
`if (!isnan(savedCal) && savedCal != 0.0)` use it and report the store as the
source, else use the default 1.0 and report the default as the source. The
returned factor is what `setCalFactor` receives. -/
def loadCal (stored : FVal) : Rat × LoadSrc :=
  if !(isnanF stored) && fvalNeZero stored then
    (fvalNum stored, .fromStore)
  else
    (1, .fromDefault)

/-- `EEPROM.put` on the single calibration cell (address 0). -/
def eepromPut (_cell : FVal) (v : Rat) : FVal := .num v

/-- `EEPROM.get` on the single calibration cell. -/
def eepromGet (cell : FVal) : FVal := cell

/-- The save sequence of the `y` branch (lines 228-237): `EEPROM.put`, commit
(a no-op on the cell content), then `EEPROM.get` back into the variable that
is subsequently reported. Returns the new cell content and the re-read value
that gets reported. -/
def saveCal (cell : FVal) (f : Rat) : FVal × FVal :=
  (eepromPut cell f, eepromGet (eepromPut cell f))

/-- Observable inputs to one iteration of a blocking wait loop in
`calibrate`/`changeSavedCalFactor`: whether serial data is available, the byte
`Serial.read()` would return, the float `Serial.parseFloat()` would return,
and the value of `getTareStatus()` on the driver this iteration. -/
structure CalIter where
  avail : Bool
  byte : Char
  float : Rat
  tareStatus : Bool

/-- The stage of the `calibrate` procedure (spec: CalibrationSession stages):
waiting for driver-reported tare completion, waiting for a nonzero
known-mass entry, waiting for the y/n save decision (carrying the computed
new calibration value), or done. -/
inductive CalStage
  | awaitingTare
  | awaitingKnownMass
  | awaitingSaveDecision (newCal : Rat)
  | done
deriving DecidableEq

/-- State carried across `calibrate` iterations: the stage and the EEPROM
cell content. -/
structure CalState where
  stage : CalStage
  eeprom : FVal
deriving DecidableEq

/-- Observable events of a `calibrate` run: a consumed tare completion, a
consumed nonzero mass entry, a consumed y/n decision. -/
inductive CalEvent
  | tareComplete
  | massEntered (m : Rat)
  | decision (c : Char)
deriving DecidableEq

/-- One iteration of `calibrate` (lines 182-249), as a step of the stage
machine. AwaitingTare (lines 188-198): a `t` byte re-issues `tareNoDelay` to
the driver (external effect), and the stage advances exactly when
`getTareStatus()` reports true. AwaitingKnownMass (lines 203-212): when serial
data is available, `parseFloat` is consumed; only a value different from 0
is accepted, computing the new calibration value via the driver
(`getNewCalibration`, the parameter `f`). AwaitingSaveDecision (lines
224-245): a `y` byte writes the new value to the EEPROM cell and finishes, an
`n` byte finishes without touching the cell, any other byte is ignored. -/
def calStep (f : Rat → Rat) (s : CalState) (it : CalIter) :
    CalState × List CalEvent :=
  match s with
  | ⟨.awaitingTare, e⟩ =>
      if it.tareStatus then
        (⟨.awaitingKnownMass, e⟩, [.tareComplete])
      else
        (⟨.awaitingTare, e⟩, [])
  | ⟨.awaitingKnownMass, e⟩ =>
      if it.avail then
        if it.float ≠ 0 then
          (⟨.awaitingSaveDecision (f it.float), e⟩, [.massEntered it.float])
        else
          (⟨.awaitingKnownMass, e⟩, [])
      else
        (⟨.awaitingKnownMass, e⟩, [])
  | ⟨.awaitingSaveDecision c, e⟩ =>
      if it.avail then
        if it.byte = 'y' then
          (⟨.done, .num c⟩, [.decision 'y'])
        else if it.byte = 'n' then
          (⟨.done, e⟩, [.decision 'n'])
        else
          (⟨.awaitingSaveDecision c, e⟩, [])
      else
        (⟨.awaitingSaveDecision c, e⟩, [])
  | ⟨.done, e⟩ => (⟨.done, e⟩, [])

/-- Run `calStep` over a list of iteration inputs, collecting events. -/
def calRun (f : Rat → Rat) : CalState → List CalIter → CalState × List CalEvent
  | s, [] => (s, [])
  | s, it :: rest =>
      ((calRun f (calStep f s it).1 rest).1,
       (calStep f s it).2 ++ (calRun f (calStep f s it).1 rest).2)

/-- Stage of the `changeSavedCalFactor` procedure (`c` command): waiting for a
nonzero factor entry, waiting for the y/n save decision (carrying the entered
value), or done. -/
inductive CcStage
  | awaitingFactor
  | awaitingSave (v : Rat)
  | done
deriving DecidableEq

/-- State carried across `changeSavedCalFactor` iterations: the stage, the
active calibration factor of the driver (`setCalFactor`/`getCalFactor`), and the
EEPROM cell content. -/
structure CcState where
  stage : CcStage
  driverCal : Rat
  eeprom : FVal
deriving DecidableEq

/-- Observable events of a `changeSavedCalFactor` run. -/
inductive CcEvent
  | entered (v : Rat)
  | decision (c : Char)
deriving DecidableEq

/-- One iteration of `changeSavedCalFactor` (lines 251-294). Entry loop
(lines 258-267): when serial data is available, `parseFloat` is consumed;
a value different from 0 is accepted and `setCalFactor` is called with it
immediately, before the save question. Save loop (lines 270-291): `y` writes
the entered value to the EEPROM cell, `n` finishes without touching it. -/
def ccStep (s : CcState) (it : CalIter) : CcState × List CcEvent :=
  match s with
  | ⟨.awaitingFactor, d, e⟩ =>
      if it.avail then
        if it.float ≠ 0 then
          (⟨.awaitingSave it.float, it.float, e⟩, [.entered it.float])
        else
          (⟨.awaitingFactor, d, e⟩, [])
      else
        (⟨.awaitingFactor, d, e⟩, [])
  | ⟨.awaitingSave v, d, e⟩ =>
      if it.avail then
        if it.byte = 'y' then
          (⟨.done, d, .num v⟩, [.decision 'y'])
        else if it.byte = 'n' then
          (⟨.done, d, e⟩, [.decision 'n'])
        else
          (⟨.awaitingSave v, d, e⟩, [])
      else
        (⟨.awaitingSave v, d, e⟩, [])
  | ⟨.done, d, e⟩ => (⟨.done, d, e⟩, [])

/-- Run `ccStep` over a list of iteration inputs, collecting events. -/
def ccRun : CcState → List CalIter → CcState × List CcEvent
  | s, [] => (s, [])
  | s, it :: rest =>
      ((ccRun (ccStep s it).1 rest).1,
       (ccStep s it).2 ++ (ccRun (ccStep s it).1 rest).2)

/-- `Rat.floor` agrees with the floor of the `FloorRing` instance on the
rationals. -/
lemma rat_floor_eq_intFloor (q : Rat) : q.floor = ⌊q⌋ :=
  le_antisymm (Int.le_floor.mpr (Rat.le_floor.mp le_rfl))
    (Rat.le_floor.mpr (Int.le_floor.mp le_rfl))

/-- Case split for one scheduler pass: either the interval has elapsed and the
state advances by exactly the interval with an emission, or nothing happens. -/
lemma schedTick_cases (intervalMs : Nat) (s : SchedState) (now : Nat) :
    (intervalMs ≤ now - s.lastSampleMs ∧
      schedTick intervalMs s now =
        ({ s with lastSampleMs := s.lastSampleMs + intervalMs },
         some (now - s.startTimeMs))) ∨
    (¬ intervalMs ≤ now - s.lastSampleMs ∧
      schedTick intervalMs s now = (s, none)) := by
  unfold schedTick
  by_cases h : now - s.lastSampleMs ≥ intervalMs
  · exact Or.inl ⟨h, by rw [if_pos h]⟩
  · exact Or.inr ⟨h, by rw [if_neg h]⟩

/-- Claim C1 (amended): the schedule reference `lastSampleMs` advances by
exactly one interval per emitted reading, for every poll sequence: after a
run, `lastSampleMs` equals its initial value plus the interval times the
number of emitted readings, and the stream origin `startTimeMs` is untouched;
so the scheduled due times form an arithmetic sequence with common difference
exactly the interval and there is no cumulative drift. (The elapsed-time
values attached to the emitted readings themselves are the raw poll times
`now - startTimeMs` and jitter with the polls; see the counterexample.) -/
theorem claim_C1_amended (intervalMs : Nat) (s : SchedState) (polls : List Nat) :
    (schedRun intervalMs s polls).1.lastSampleMs =
      s.lastSampleMs + intervalMs * (schedRun intervalMs s polls).2.length ∧
    (schedRun intervalMs s polls).1.startTimeMs = s.startTimeMs := by
  induction polls generalizing s with
  | nil => simp [schedRun]
  | cons now rest ih =>
    unfold schedRun
    rcases schedTick_cases intervalMs s now with ⟨_, heq⟩ | ⟨_, heq⟩ <;>
      rw [heq] <;>
      simp only [Option.toList, List.length_append, List.length_cons,
        List.length_nil, List.nil_append, List.singleton_append]
    · obtain ⟨h1, h2⟩ := ih { s with lastSampleMs := s.lastSampleMs + intervalMs }
      refine ⟨?_, h2⟩
      rw [h1]
      ring
    · obtain ⟨h1, h2⟩ := ih s
      exact ⟨by rw [h1], h2⟩

/-- Claim C1, counterexample to the claim as stated: with interval 10 and
polls at 15 and 20 (start 0, last emission reference 0), the code emits
readings stamped 15 and 20 — consecutive difference 5, not the interval 10.
The attached elapsed values do not form an arithmetic sequence with common
difference the interval when polls arrive irregularly. -/
theorem claim_C1_counterexample :
    (schedRun 10 ⟨0, 0⟩ [15, 20]).2 = [15, 20] ∧ ¬ (20 - 15 = 10) := by
  decide

/-- Claim C2 (amended): each scheduler pass emits at most one reading, and on
every emission the schedule reference advances by exactly one interval —
`lastSampleMs + intervalMs`, never snapped to `now` — and the emitted stamp is
`now - startTimeMs`. (Missed intervals are NOT skipped: the reference lags
behind, so subsequent polls each emit until it catches up — a catch-up burst
across polls; see the counterexample.) -/
theorem claim_C2_amended (intervalMs : Nat) (s : SchedState) (now e : Nat)
    (h : (schedTick intervalMs s now).2 = some e) :
    (schedTick intervalMs s now).1.lastSampleMs = s.lastSampleMs + intervalMs ∧
    (schedTick intervalMs s now).1.startTimeMs = s.startTimeMs ∧
    e = now - s.startTimeMs := by
  rcases schedTick_cases intervalMs s now with ⟨_, heq⟩ | ⟨_, heq⟩ <;>
    rw [heq] at h ⊢
  · obtain rfl : now - s.startTimeMs = e := by simpa using h
    exact ⟨rfl, rfl, rfl⟩
  · simp at h

/-- Witness for claim C2 (amended) at interval 10, state (start 0, last 0),
poll 15. -/
theorem claim_C2_witness :
    (schedTick 10 ⟨0, 0⟩ 15).2 = some 15 ∧
    ((schedTick 10 ⟨0, 0⟩ 15).1.lastSampleMs = 0 + 10 ∧
     (schedTick 10 ⟨0, 0⟩ 15).1.startTimeMs = 0 ∧ 15 = 15 - 0) :=
  ⟨by decide, claim_C2_amended 10 ⟨0, 0⟩ 15 15 (by decide)⟩

/-- Claim C2, counterexample to the claim as stated: with interval 10 and the
reference at 0, polls at 100, 101 and 102 — i.e. resuming after ten unserved
intervals — each produce an emission: three readings within a 2 ms span, a
catch-up burst. The missed ticks are not skipped. -/
theorem claim_C2_counterexample :
    (schedRun 10 ⟨0, 0⟩ [100, 101, 102]).2 = [100, 101, 102] ∧
    102 - 100 < 10 := by
  decide

/-- Claim C4: `load` returns the default 1.0 when the stored value is NaN or
exactly zero, and returns the stored value itself otherwise; in both cases
the source actually used (store vs. default) is reported. -/
theorem claim_C4 (s : FVal) :
    ((s = .nan ∨ s = .num 0) → loadCal s = (1, .fromDefault)) ∧
    (∀ q : Rat, q ≠ 0 → s = .num q → loadCal s = (q, .fromStore)) := by
  cases s with
  | nan =>
    refine ⟨fun _ => rfl, fun q hq hs => ?_⟩
    simp at hs
  | num q0 =>
    constructor
    · rintro (h | h)
      · simp at h
      · obtain rfl : q0 = 0 := by simpa using h
        rfl
    · rintro q hq hs
      obtain rfl : q0 = q := by simpa using hs
      simp [loadCal, isnanF, fvalNeZero, fvalNum, hq]

/-- Witness for claim C4: a NaN cell loads as the default 1.0 (reported as
default), a stored 3 loads as 3 (reported as from the store). -/
theorem claim_C4_witness :
    loadCal FVal.nan = (1, LoadSrc.fromDefault) ∧
    loadCal (FVal.num 3) = (3, LoadSrc.fromStore) :=
  ⟨(claim_C4 FVal.nan).1 (Or.inl rfl),
   (claim_C4 (FVal.num 3)).2 3 (by norm_num) rfl⟩

/-- Claim C5: for every finite nonzero factor, saving then loading yields the
factor back (reported as coming from the store), and the value `save` reports
is the re-read content of the cell after the write, not the input as such. -/
theorem claim_C5 (cell : FVal) (f : Rat) (hf : f ≠ 0) :
    loadCal (saveCal cell f).1 = (f, LoadSrc.fromStore) ∧
    (saveCal cell f).2 = eepromGet (saveCal cell f).1 := by
  constructor
  · simp [saveCal, eepromPut, eepromGet, loadCal, isnanF, fvalNeZero,
      fvalNum, hf]
  · rfl

/-- Witness for claim C5 at a NaN-initialised cell and factor 3. -/
theorem claim_C5_witness :
    loadCal (saveCal FVal.nan 3).1 = (3, LoadSrc.fromStore) ∧
    (saveCal FVal.nan 3).2 = eepromGet (saveCal FVal.nan 3).1 :=
  claim_C5 FVal.nan 3 (by norm_num)

/-- Claim C6 (amended): the sample interval starts strictly positive (10 ms),
and an execution of the set-frequency command preserves strict positivity for
every accepted frequency of at most 1000 Hz, while a non-positive frequency is
rejected and retains the prior interval. (An accepted frequency above 1000 Hz
sets the interval to 0, because the truncating cast of `1000.0f / newHz`
rounds a value below 1 down to 0; see the counterexample.) -/
theorem claim_C6_amended :
    0 < sampleIntervalMsInit ∧
    (∀ (hz : Rat) (old : Nat), 0 < hz → hz ≤ 1000 →
      0 < (freqCommand (some hz) old).1) ∧
    (∀ (hz : Rat) (old : Nat), hz ≤ 0 →
      freqCommand (some hz) old = (old, FreqMsg.invalid)) := by
  refine ⟨by decide, ?_, ?_⟩
  · intro hz old h0 h1000
    simp only [freqCommand]
    rw [if_pos h0]
    have hd : (1 : Rat) ≤ 1000 / hz := (one_le_div h0).mpr h1000
    have hf : (1 : Int) ≤ (1000 / hz : Rat).floor :=
      Rat.le_floor.mpr (by exact_mod_cast hd)
    show 0 < (1000 / hz : Rat).floor.toNat
    omega
  · intro hz old h
    simp only [freqCommand]
    rw [if_neg (not_lt.mpr h)]

/-- Witness for claim C6 (amended): frequency 50 Hz from interval 10. -/
theorem claim_C6_witness :
    0 < (freqCommand (some 50) 10).1 :=
  claim_C6_amended.2.1 50 10 (by norm_num) (by norm_num)

/-- Claim C6, counterexample to the claim as stated: operator frequency
2000 Hz is accepted (the success message is emitted) yet sets the sample
interval to 0, violating strict positivity. -/
theorem claim_C6_counterexample :
    freqCommand (some 2000) 10 = (0, FreqMsg.setTo 2000) := by
  simp only [freqCommand]
  rw [if_pos (by norm_num : (0 : Rat) < 2000)]
  have h2 : ((1000 : Rat) / 2000) = 1 / 2 := by norm_num
  have hf : ((1000 : Rat) / 2000).floor = 0 := by
    rw [h2, rat_floor_eq_intFloor, Int.floor_eq_iff]
    norm_num
  rw [hf]
  rfl

/-- Claim C7: for the set-frequency command, input 50 within the timeout
window sets the interval to exactly 20 ms with a success message; input 0,
or no input within the 5-second window, leaves the interval unchanged and
emits a rejection message. -/
theorem claim_C7 (old : Nat) :
    freqCommand (some 50) old = (20, FreqMsg.setTo 50) ∧
    freqCommand (some 0) old = (old, FreqMsg.invalid) ∧
    freqCommand none old = (old, FreqMsg.noInput) := by
  refine ⟨?_, ?_, rfl⟩
  · simp only [freqCommand]
    rw [if_pos (by norm_num : (0 : Rat) < 50)]
    have h20 : ((1000 : Rat) / 50) = ((20 : Int) : Rat) := by norm_num
    have hf : ((1000 : Rat) / 50).floor = 20 := by
      rw [h20, rat_floor_eq_intFloor, Int.floor_intCast]
    rw [hf]
    rfl
  · simp only [freqCommand]
    rw [if_neg (by norm_num : ¬ (0 : Rat) < 0)]

/-- Claim C9: `clampZero` returns its input when the input is at least 0 and
returns 0 otherwise, so every emitted reading is non-negative, and it is
idempotent. -/
theorem claim_C9 (x : Rat) :
    (0 ≤ x → clampZero x = x) ∧ (x < 0 → clampZero x = 0) ∧
    0 ≤ clampZero x ∧ clampZero (clampZero x) = clampZero x := by
  unfold clampZero
  by_cases h : x < 0
  · have h0 : ¬ (0 : Rat) ≤ x := not_le.mpr h
    simp [h, h0]
  · have h0 : (0 : Rat) ≤ x := not_lt.mp h
    simp [h, h0]

/-- Witness for claim C9 at inputs 3 and -2. -/
theorem claim_C9_witness :
    clampZero 3 = 3 ∧ clampZero (-2) = 0 :=
  ⟨(claim_C9 3).1 (by norm_num), (claim_C9 (-2)).2.1 (by norm_num)⟩

/-- A `calibrate` run that has reached Done stays there, consuming nothing. -/
lemma calRun_done (f : Rat → Rat) (e : FVal) (its : List CalIter) :
    calRun f ⟨.done, e⟩ its = (⟨.done, e⟩, []) := by
  induction its with
  | nil => rfl
  | cons it rest ih => simp [calRun, calStep, ih]

/-- Outcomes of a `calibrate` run started at the save-decision stage: either
no decision byte has been consumed and nothing changed, or a single `y`
decision was consumed and the new value written to the cell, or a single `n`
decision was consumed and the cell left untouched. -/
lemma calRun_save (f : Rat → Rat) (c : Rat) (e : FVal) (its : List CalIter) :
    calRun f ⟨.awaitingSaveDecision c, e⟩ its =
        (⟨.awaitingSaveDecision c, e⟩, []) ∨
    calRun f ⟨.awaitingSaveDecision c, e⟩ its =
        (⟨.done, .num c⟩, [.decision 'y']) ∨
    calRun f ⟨.awaitingSaveDecision c, e⟩ its =
        (⟨.done, e⟩, [.decision 'n']) := by
  induction its with
  | nil => exact Or.inl rfl
  | cons it rest ih =>
    by_cases ha : it.avail
    · by_cases hy : it.byte = 'y'
      · refine Or.inr (Or.inl ?_)
        simp [calRun, calStep, ha, hy, calRun_done]
      · by_cases hn : it.byte = 'n'
        · refine Or.inr (Or.inr ?_)
          simp [calRun, calStep, ha, hy, hn, calRun_done]
        · have hstep : calStep f ⟨.awaitingSaveDecision c, e⟩ it =
              (⟨.awaitingSaveDecision c, e⟩, []) := by
            simp [calStep, ha, hy, hn]
          rcases ih with h | h | h
          · exact Or.inl (by simp [calRun, hstep, h])
          · exact Or.inr (Or.inl (by simp [calRun, hstep, h]))
          · exact Or.inr (Or.inr (by simp [calRun, hstep, h]))
    · have hstep : calStep f ⟨.awaitingSaveDecision c, e⟩ it =
          (⟨.awaitingSaveDecision c, e⟩, []) := by
        simp [calStep, ha]
      rcases ih with h | h | h
      · exact Or.inl (by simp [calRun, hstep, h])
      · exact Or.inr (Or.inl (by simp [calRun, hstep, h]))
      · exact Or.inr (Or.inr (by simp [calRun, hstep, h]))

/-- Outcomes of a `calibrate` run started at the known-mass stage: nothing
consumed, or exactly one nonzero mass consumed (optionally followed by the
save-decision outcomes). -/
lemma calRun_mass (f : Rat → Rat) (e : FVal) (its : List CalIter) :
    calRun f ⟨.awaitingKnownMass, e⟩ its = (⟨.awaitingKnownMass, e⟩, []) ∨
    (∃ m, m ≠ 0 ∧ calRun f ⟨.awaitingKnownMass, e⟩ its =
        (⟨.awaitingSaveDecision (f m), e⟩, [.massEntered m])) ∨
    (∃ m, m ≠ 0 ∧ calRun f ⟨.awaitingKnownMass, e⟩ its =
        (⟨.done, .num (f m)⟩, [.massEntered m, .decision 'y'])) ∨
    (∃ m, m ≠ 0 ∧ calRun f ⟨.awaitingKnownMass, e⟩ its =
        (⟨.done, e⟩, [.massEntered m, .decision 'n'])) := by
  induction its with
  | nil => exact Or.inl rfl
  | cons it rest ih =>
    by_cases ha : it.avail
    · by_cases hm : it.float = 0
      · have hstep : calStep f ⟨.awaitingKnownMass, e⟩ it =
            (⟨.awaitingKnownMass, e⟩, []) := by
          simp [calStep, ha, hm]
        rcases ih with h | ⟨m, hm2, h⟩ | ⟨m, hm2, h⟩ | ⟨m, hm2, h⟩
        · exact Or.inl (by simp [calRun, hstep, h])
        · exact Or.inr (Or.inl ⟨m, hm2, by simp [calRun, hstep, h]⟩)
        · exact Or.inr (Or.inr (Or.inl ⟨m, hm2, by simp [calRun, hstep, h]⟩))
        · exact Or.inr (Or.inr (Or.inr ⟨m, hm2, by simp [calRun, hstep, h]⟩))
      · have hstep : calStep f ⟨.awaitingKnownMass, e⟩ it =
            (⟨.awaitingSaveDecision (f it.float), e⟩,
             [.massEntered it.float]) := by
          simp [calStep, ha, hm]
        have hrun : calRun f ⟨.awaitingKnownMass, e⟩ (it :: rest) =
            ((calRun f ⟨.awaitingSaveDecision (f it.float), e⟩ rest).1,
             .massEntered it.float ::
               (calRun f ⟨.awaitingSaveDecision (f it.float), e⟩ rest).2) := by
          simp [calRun, hstep]
        rcases calRun_save f (f it.float) e rest with h | h | h
        · exact Or.inr (Or.inl ⟨it.float, hm, by rw [hrun, h]⟩)
        · exact Or.inr (Or.inr (Or.inl ⟨it.float, hm, by rw [hrun, h]⟩))
        · exact Or.inr (Or.inr (Or.inr ⟨it.float, hm, by rw [hrun, h]⟩))
    · have hstep : calStep f ⟨.awaitingKnownMass, e⟩ it =
          (⟨.awaitingKnownMass, e⟩, []) := by
        simp [calStep, ha]
      rcases ih with h | ⟨m, hm2, h⟩ | ⟨m, hm2, h⟩ | ⟨m, hm2, h⟩
      · exact Or.inl (by simp [calRun, hstep, h])
      · exact Or.inr (Or.inl ⟨m, hm2, by simp [calRun, hstep, h]⟩)
      · exact Or.inr (Or.inr (Or.inl ⟨m, hm2, by simp [calRun, hstep, h]⟩))
      · exact Or.inr (Or.inr (Or.inr ⟨m, hm2, by simp [calRun, hstep, h]⟩))

/-- Outcomes of a full `calibrate` run started at the tare stage: the run
consumes, in order, at most one tare completion, then at most one nonzero
mass entry, then at most one y/n decision, and only `y` touches the cell. -/
lemma calRun_tare (f : Rat → Rat) (e : FVal) (its : List CalIter) :
    calRun f ⟨.awaitingTare, e⟩ its = (⟨.awaitingTare, e⟩, []) ∨
    calRun f ⟨.awaitingTare, e⟩ its =
        (⟨.awaitingKnownMass, e⟩, [.tareComplete]) ∨
    (∃ m, m ≠ 0 ∧ calRun f ⟨.awaitingTare, e⟩ its =
        (⟨.awaitingSaveDecision (f m), e⟩,
         [.tareComplete, .massEntered m])) ∨
    (∃ m, m ≠ 0 ∧ calRun f ⟨.awaitingTare, e⟩ its =
        (⟨.done, .num (f m)⟩,
         [.tareComplete, .massEntered m, .decision 'y'])) ∨
    (∃ m, m ≠ 0 ∧ calRun f ⟨.awaitingTare, e⟩ its =
        (⟨.done, e⟩, [.tareComplete, .massEntered m, .decision 'n'])) := by
  induction its with
  | nil => exact Or.inl rfl
  | cons it rest ih =>
    by_cases ht : it.tareStatus
    · have hstep : calStep f ⟨.awaitingTare, e⟩ it =
          (⟨.awaitingKnownMass, e⟩, [.tareComplete]) := by
        simp [calStep, ht]
      have hrun : calRun f ⟨.awaitingTare, e⟩ (it :: rest) =
          ((calRun f ⟨.awaitingKnownMass, e⟩ rest).1,
           .tareComplete :: (calRun f ⟨.awaitingKnownMass, e⟩ rest).2) := by
        simp [calRun, hstep]
      rcases calRun_mass f e rest with h | ⟨m, hm, h⟩ | ⟨m, hm, h⟩ | ⟨m, hm, h⟩
      · exact Or.inr (Or.inl (by rw [hrun, h]))
      · exact Or.inr (Or.inr (Or.inl ⟨m, hm, by rw [hrun, h]⟩))
      · exact Or.inr (Or.inr (Or.inr (Or.inl ⟨m, hm, by rw [hrun, h]⟩)))
      · exact Or.inr (Or.inr (Or.inr (Or.inr ⟨m, hm, by rw [hrun, h]⟩)))
    · have hstep : calStep f ⟨.awaitingTare, e⟩ it =
          (⟨.awaitingTare, e⟩, []) := by
        simp [calStep, ht]
      rcases ih with h | h | ⟨m, hm, h⟩ | ⟨m, hm, h⟩ | ⟨m, hm, h⟩
      · exact Or.inl (by simp [calRun, hstep, h])
      · exact Or.inr (Or.inl (by simp [calRun, hstep, h]))
      · exact Or.inr (Or.inr (Or.inl ⟨m, hm, by simp [calRun, hstep, h]⟩))
      · exact Or.inr (Or.inr (Or.inr (Or.inl ⟨m, hm,
          by simp [calRun, hstep, h]⟩)))
      · exact Or.inr (Or.inr (Or.inr (Or.inr ⟨m, hm,
          by simp [calRun, hstep, h]⟩)))

/-- Claim C3: a `calibrate` run reaches Done only after consuming exactly one
driver-reported tare completion, then one nonzero known-mass entry, then one
y/n decision, in that order; and a run answered with `n` leaves the EEPROM
cell exactly as it was before the procedure ran. -/
theorem claim_C3 (f : Rat → Rat) (e0 : FVal) (its : List CalIter)
    (h : (calRun f ⟨.awaitingTare, e0⟩ its).1.stage = .done) :
    ∃ m d, (calRun f ⟨.awaitingTare, e0⟩ its).2 =
        [.tareComplete, .massEntered m, .decision d] ∧
      m ≠ 0 ∧ (d = 'y' ∨ d = 'n') ∧
      (d = 'n' → (calRun f ⟨.awaitingTare, e0⟩ its).1.eeprom = e0) := by
  rcases calRun_tare f e0 its with heq | heq | ⟨m, hm, heq⟩ | ⟨m, hm, heq⟩ |
    ⟨m, hm, heq⟩
  · rw [heq] at h; simp at h
  · rw [heq] at h; simp at h
  · rw [heq] at h; simp at h
  · rw [heq] at h ⊢
    exact ⟨m, 'y', rfl, hm, Or.inl rfl, fun hd => absurd hd (by decide)⟩
  · rw [heq] at h ⊢
    exact ⟨m, 'n', rfl, hm, Or.inr rfl, fun _ => rfl⟩

/-- Witness for claim C3: a run with tare completing on the first iteration,
mass 5 entered on the second, and `n` answered on the third, starting from a
cell holding 2. -/
theorem claim_C3_witness :
    ∃ m d,
      (calRun (fun q => q) ⟨.awaitingTare, FVal.num 2⟩
          [⟨false, 'x', 0, true⟩, ⟨true, 'x', 5, false⟩,
           ⟨true, 'n', 0, false⟩]).2 =
        [.tareComplete, .massEntered m, .decision d] ∧
      m ≠ 0 ∧ (d = 'y' ∨ d = 'n') ∧
      (d = 'n' →
        (calRun (fun q => q) ⟨.awaitingTare, FVal.num 2⟩
            [⟨false, 'x', 0, true⟩, ⟨true, 'x', 5, false⟩,
             ⟨true, 'n', 0, false⟩]).1.eeprom = FVal.num 2) :=
  claim_C3 (fun q => q) (FVal.num 2)
    [⟨false, 'x', 0, true⟩, ⟨true, 'x', 5, false⟩, ⟨true, 'n', 0, false⟩]
    (by rfl)

/-- A `changeSavedCalFactor` run that has reached Done stays there. -/
lemma ccRun_done (d : Rat) (e : FVal) (its : List CalIter) :
    ccRun ⟨.done, d, e⟩ its = (⟨.done, d, e⟩, []) := by
  induction its with
  | nil => rfl
  | cons it rest ih => simp [ccRun, ccStep, ih]

/-- Outcomes of a `changeSavedCalFactor` run started at the save-decision
stage: the driver factor is never touched there, and only `y` writes the
cell. -/
lemma ccRun_save (v dcal : Rat) (e : FVal) (its : List CalIter) :
    ccRun ⟨.awaitingSave v, dcal, e⟩ its = (⟨.awaitingSave v, dcal, e⟩, []) ∨
    ccRun ⟨.awaitingSave v, dcal, e⟩ its =
        (⟨.done, dcal, .num v⟩, [.decision 'y']) ∨
    ccRun ⟨.awaitingSave v, dcal, e⟩ its =
        (⟨.done, dcal, e⟩, [.decision 'n']) := by
  induction its with
  | nil => exact Or.inl rfl
  | cons it rest ih =>
    by_cases ha : it.avail
    · by_cases hy : it.byte = 'y'
      · refine Or.inr (Or.inl ?_)
        simp [ccRun, ccStep, ha, hy, ccRun_done]
      · by_cases hn : it.byte = 'n'
        · refine Or.inr (Or.inr ?_)
          simp [ccRun, ccStep, ha, hy, hn, ccRun_done]
        · have hstep : ccStep ⟨.awaitingSave v, dcal, e⟩ it =
              (⟨.awaitingSave v, dcal, e⟩, []) := by
            simp [ccStep, ha, hy, hn]
          rcases ih with h | h | h
          · exact Or.inl (by simp [ccRun, hstep, h])
          · exact Or.inr (Or.inl (by simp [ccRun, hstep, h]))
          · exact Or.inr (Or.inr (by simp [ccRun, hstep, h]))
    · have hstep : ccStep ⟨.awaitingSave v, dcal, e⟩ it =
          (⟨.awaitingSave v, dcal, e⟩, []) := by
        simp [ccStep, ha]
      rcases ih with h | h | h
      · exact Or.inl (by simp [ccRun, hstep, h])
      · exact Or.inr (Or.inl (by simp [ccRun, hstep, h]))
      · exact Or.inr (Or.inr (by simp [ccRun, hstep, h]))

/-- Outcomes of a `changeSavedCalFactor` run started at the entry stage: once
a nonzero value is consumed the driver factor already holds it, whatever the
later decision. -/
lemma ccRun_factor (d0 : Rat) (e0 : FVal) (its : List CalIter) :
    ccRun ⟨.awaitingFactor, d0, e0⟩ its = (⟨.awaitingFactor, d0, e0⟩, []) ∨
    (∃ v, v ≠ 0 ∧ ccRun ⟨.awaitingFactor, d0, e0⟩ its =
        (⟨.awaitingSave v, v, e0⟩, [.entered v])) ∨
    (∃ v, v ≠ 0 ∧ ccRun ⟨.awaitingFactor, d0, e0⟩ its =
        (⟨.done, v, .num v⟩, [.entered v, .decision 'y'])) ∨
    (∃ v, v ≠ 0 ∧ ccRun ⟨.awaitingFactor, d0, e0⟩ its =
        (⟨.done, v, e0⟩, [.entered v, .decision 'n'])) := by
  induction its with
  | nil => exact Or.inl rfl
  | cons it rest ih =>
    by_cases ha : it.avail
    · by_cases hv : it.float = 0
      · have hstep : ccStep ⟨.awaitingFactor, d0, e0⟩ it =
            (⟨.awaitingFactor, d0, e0⟩, []) := by
          simp [ccStep, ha, hv]
        rcases ih with h | ⟨v, hv2, h⟩ | ⟨v, hv2, h⟩ | ⟨v, hv2, h⟩
        · exact Or.inl (by simp [ccRun, hstep, h])
        · exact Or.inr (Or.inl ⟨v, hv2, by simp [ccRun, hstep, h]⟩)
        · exact Or.inr (Or.inr (Or.inl ⟨v, hv2, by simp [ccRun, hstep, h]⟩))
        · exact Or.inr (Or.inr (Or.inr ⟨v, hv2, by simp [ccRun, hstep, h]⟩))
      · have hstep : ccStep ⟨.awaitingFactor, d0, e0⟩ it =
            (⟨.awaitingSave it.float, it.float, e0⟩, [.entered it.float]) := by
          simp [ccStep, ha, hv]
        have hrun : ccRun ⟨.awaitingFactor, d0, e0⟩ (it :: rest) =
            ((ccRun ⟨.awaitingSave it.float, it.float, e0⟩ rest).1,
             .entered it.float ::
               (ccRun ⟨.awaitingSave it.float, it.float, e0⟩ rest).2) := by
          simp [ccRun, hstep]
        rcases ccRun_save it.float it.float e0 rest with h | h | h
        · exact Or.inr (Or.inl ⟨it.float, hv, by rw [hrun, h]⟩)
        · exact Or.inr (Or.inr (Or.inl ⟨it.float, hv, by rw [hrun, h]⟩))
        · exact Or.inr (Or.inr (Or.inr ⟨it.float, hv, by rw [hrun, h]⟩))
    · have hstep : ccStep ⟨.awaitingFactor, d0, e0⟩ it =
          (⟨.awaitingFactor, d0, e0⟩, []) := by
        simp [ccStep, ha]
      rcases ih with h | ⟨v, hv2, h⟩ | ⟨v, hv2, h⟩ | ⟨v, hv2, h⟩
      · exact Or.inl (by simp [ccRun, hstep, h])
      · exact Or.inr (Or.inl ⟨v, hv2, by simp [ccRun, hstep, h]⟩)
      · exact Or.inr (Or.inr (Or.inl ⟨v, hv2, by simp [ccRun, hstep, h]⟩))
      · exact Or.inr (Or.inr (Or.inr ⟨v, hv2, by simp [ccRun, hstep, h]⟩))

/-- Claim C10: in the direct set-factor command, the active driver factor
already equals the entered value while the y/n decision is still pending; and
a completed run answered with `n` leaves the entered value active in the
driver while the EEPROM cell keeps its prior content. -/
theorem claim_C10 (d0 : Rat) (e0 : FVal) (its : List CalIter) :
    (∀ v, (ccRun ⟨.awaitingFactor, d0, e0⟩ its).1.stage = .awaitingSave v →
      (ccRun ⟨.awaitingFactor, d0, e0⟩ its).1.driverCal = v) ∧
    ((ccRun ⟨.awaitingFactor, d0, e0⟩ its).1.stage = .done →
      ∃ v d, (ccRun ⟨.awaitingFactor, d0, e0⟩ its).2 =
          [.entered v, .decision d] ∧ v ≠ 0 ∧
        (ccRun ⟨.awaitingFactor, d0, e0⟩ its).1.driverCal = v ∧
        (d = 'n' → (ccRun ⟨.awaitingFactor, d0, e0⟩ its).1.eeprom = e0)) := by
  rcases ccRun_factor d0 e0 its with heq | ⟨v, hv, heq⟩ | ⟨v, hv, heq⟩ |
    ⟨v, hv, heq⟩ <;> rw [heq] <;> constructor
  · intro v hs; simp at hs
  · intro hd; simp at hd
  · intro v2 hs
    obtain rfl : v = v2 := by simpa using hs
    rfl
  · intro hd; simp at hd
  · intro v2 hs; simp at hs
  · intro _
    exact ⟨v, 'y', rfl, hv, rfl, fun hd => absurd hd (by decide)⟩
  · intro v2 hs; simp at hs
  · intro _
    exact ⟨v, 'n', rfl, hv, rfl, fun _ => rfl⟩

/-- Witness for claim C10: entering 7 then answering `n`, from driver factor 1
and a NaN cell. -/
theorem claim_C10_witness :
    ∃ v d,
      (ccRun ⟨.awaitingFactor, 1, FVal.nan⟩
          [⟨true, 'x', 7, false⟩, ⟨true, 'n', 0, false⟩]).2 =
        [.entered v, .decision d] ∧ v ≠ 0 ∧
      (ccRun ⟨.awaitingFactor, 1, FVal.nan⟩
          [⟨true, 'x', 7, false⟩, ⟨true, 'n', 0, false⟩]).1.driverCal = v ∧
      (d = 'n' →
        (ccRun ⟨.awaitingFactor, 1, FVal.nan⟩
            [⟨true, 'x', 7, false⟩, ⟨true, 'n', 0, false⟩]).1.eeprom =
          FVal.nan) :=
  (claim_C10 1 FVal.nan
      [⟨true, 'x', 7, false⟩, ⟨true, 'n', 0, false⟩]).2 (by rfl)

/-- Claim C8 (amended): during calibration known-mass entry and direct factor
entry, an input of exactly zero is rejected: the prior state is retained, no
entry is recorded, and the wait continues. (Only zero is filtered: a negative
nonzero value is accepted as an entry; see the counterexample.) -/
theorem claim_C8_amended (f : Rat → Rat) (e : FVal) (d : Rat) (it : CalIter)
    (ha : it.avail = true) (h0 : it.float = 0) :
    calStep f ⟨.awaitingKnownMass, e⟩ it = (⟨.awaitingKnownMass, e⟩, []) ∧
    ccStep ⟨.awaitingFactor, d, e⟩ it = (⟨.awaitingFactor, d, e⟩, []) := by
  constructor
  · simp [calStep, ha, h0]
  · simp [ccStep, ha, h0]

/-- Witness for claim C8 (amended) at a zero input. -/
theorem claim_C8_witness :
    calStep (fun q => q) ⟨.awaitingKnownMass, FVal.nan⟩
        ⟨true, 'x', 0, false⟩ = (⟨.awaitingKnownMass, FVal.nan⟩, []) ∧
    ccStep ⟨.awaitingFactor, 1, FVal.nan⟩ ⟨true, 'x', 0, false⟩ =
      (⟨.awaitingFactor, 1, FVal.nan⟩, []) :=
  claim_C8_amended (fun q => q) FVal.nan 1 ⟨true, 'x', 0, false⟩ rfl rfl

/-- Claim C8, counterexample to the claim as stated: the negative (hence
non-positive) input -5 is accepted as an entry by both the known-mass wait
and the direct factor entry (the code only filters an exact zero), instead of
being rejected. -/
theorem claim_C8_counterexample :
    calStep (fun q => q) ⟨.awaitingKnownMass, FVal.nan⟩
        ⟨true, 'x', -5, false⟩ =
      (⟨.awaitingSaveDecision (-5), FVal.nan⟩, [.massEntered (-5)]) ∧
    ccStep ⟨.awaitingFactor, 1, FVal.nan⟩ ⟨true, 'x', -5, false⟩ =
      (⟨.awaitingSave (-5), -5, FVal.nan⟩, [.entered (-5)]) := by
  constructor
  · rfl
  · rfl
